import Mathlib

/-!
# Verification of the billboards asset-preparation and CMYK pipeline

Shallow embedding of `src/color_management.py` and `src/asset_pipeline.py`:
Python floats become `ℚ`, Python strings become `List Char`, the filesystem
becomes an association list from paths to abstract images, and fallible
Python operations return `Except`/`Option`.
-/

namespace Billboards

/-- Python `int()` applied to a float: truncation toward zero. -/
def pyInt (q : ℚ) : ℤ := if 0 ≤ q then ⌊q⌋ else ⌈q⌉

/-- CMYK color with channels in percent (source: `color_management.CMYKColor`). -/
structure CMYKColor where
  c : ℚ
  m : ℚ
  y : ℚ
  k : ℚ
deriving DecidableEq

/-- `CMYKColor.from_rgb` (source: `color_management.py` lines 54-79).
Python division raises `ZeroDivisionError` on a zero divisor, so the general
formula is embedded fallibly: `none` models the (unreachable) raise. -/
def CMYKColor.fromRgb (r g b : ℚ) : Option CMYKColor :=
  if r = 0 ∧ g = 0 ∧ b = 0 then some ⟨0, 0, 0, 100⟩
  else
    let k : ℚ := 1 - max r (max g b)
    if k = 1 then some ⟨0, 0, 0, 100⟩
    else if 1 - k = 0 then none
    else some ⟨(1 - r - k) / (1 - k) * 100, (1 - g - k) / (1 - k) * 100,
               (1 - b - k) / (1 - k) * 100, k * 100⟩

/-- Interpolation factor for gradient row `y`
(source: `create_cmyk_gradient_image`, line 243). -/
def gradientT (height y : ℕ) : ℚ :=
  if height > 1 then (y : ℚ) / ((height : ℚ) - 1) else 0

/-- One channel of the gradient row color (source: lines 246-249). -/
def gradientChannel (a b t : ℚ) : ℚ := a + (b - a) * t

/-- The pixel written on row `y` of the gradient image
(source: `create_cmyk_gradient_image`, lines 241-257). -/
def gradientPixel (top bottom : CMYKColor) (height y : ℕ) : ℤ × ℤ × ℤ × ℤ :=
  let t := gradientT height y
  (pyInt (gradientChannel top.c bottom.c t * 2.55),
   pyInt (gradientChannel top.m bottom.m t * 2.55),
   pyInt (gradientChannel top.y bottom.y t * 2.55),
   pyInt (gradientChannel top.k bottom.k t * 2.55))

/-- Pixel (x, y) of the generated gradient image: the inner loop writes the
row pixel at every x (source: lines 259-261). -/
def gradientImagePixel (_width height : ℕ) (top bottom : CMYKColor)
    (_x y : ℕ) : ℤ × ℤ × ℤ × ℤ :=
  gradientPixel top bottom height y

/-- Smoothstep easing (source: `apply_cmyk_vignette`, line 344). -/
def smoothstep (t : ℚ) : ℚ := t * t * (3 - 2 * t)

/-- The per-pixel opacity computed by the vignette loop
(source: `apply_cmyk_vignette`, lines 330-357). -/
def vignetteAlpha (width height : ℕ) (edgeFade bottomFade topFade : ℚ)
    (x y : ℕ) : ℚ :=
  let sideFadeDist : ℤ := pyInt ((width : ℚ) * edgeFade)
  let bottomFadeDist : ℤ := pyInt ((height : ℚ) * bottomFade)
  let topFadeDist : ℤ := pyInt ((height : ℚ) * topFade)
  let distLeft : ℤ := x
  let distRight : ℤ := (width : ℤ) - x - 1
  let distFromTop : ℤ := y
  let distFromBottom : ℤ := (height : ℤ) - y - 1
  let a0 : ℚ := 1
  let a1 := if distLeft < sideFadeDist then
      a0 * smoothstep ((distLeft : ℚ) / (sideFadeDist : ℚ)) else a0
  let a2 := if distRight < sideFadeDist then
      a1 * smoothstep ((distRight : ℚ) / (sideFadeDist : ℚ)) else a1
  let a3 := if distFromTop < topFadeDist then
      a2 * smoothstep ((distFromTop : ℚ) / (topFadeDist : ℚ)) else a2
  let a4 := if distFromBottom < bottomFadeDist then
      a3 * (let t := (distFromBottom : ℚ) / (bottomFadeDist : ℚ); t * t * t) else a3
  a4

/-- The final value of pixel (x, y) after the vignette pass
(source: lines 360-367): channels are scaled only when the opacity dropped
below 1. -/
def vignettePixel (width height : ℕ) (edgeFade bottomFade topFade : ℚ)
    (x y : ℕ) (p : ℤ × ℤ × ℤ × ℤ) : ℤ × ℤ × ℤ × ℤ :=
  let a := vignetteAlpha width height edgeFade bottomFade topFade x y
  if a < 1 then
    (pyInt ((p.1 : ℚ) * a), pyInt ((p.2.1 : ℚ) * a),
     pyInt ((p.2.2.1 : ℚ) * a), pyInt ((p.2.2.2 : ℚ) * a))
  else p

/-- Evaluation rule for `pyInt` on a nonnegative rational. -/
lemma pyInt_eq {q : ℚ} {z : ℤ} (h0 : 0 ≤ q) (h1 : (z : ℚ) ≤ q) (h2 : q < z + 1) :
    pyInt q = z := by
  rw [pyInt, if_pos h0, Int.floor_eq_iff]
  exact ⟨h1, h2⟩

/-- `pyInt` is the identity on integers. -/
lemma pyInt_intCast (z : ℤ) : pyInt (z : ℚ) = z := by
  rw [pyInt]
  split
  · exact Int.floor_intCast z
  · exact Int.ceil_intCast z

/-- Truncation error bound: for a nonnegative rational, `pyInt` is within 1 below. -/
lemma pyInt_err {q : ℚ} (h0 : 0 ≤ q) : (pyInt q : ℚ) ≤ q ∧ q - 1 < (pyInt q : ℚ) := by
  rw [pyInt, if_pos h0]
  exact ⟨Int.floor_le q, by linarith [Int.sub_one_lt_floor q]⟩

/-- `pyInt` fixes the rational `0`. -/
lemma pyInt_zero : pyInt 0 = 0 := pyInt_eq (by norm_num) (by norm_num) (by norm_num)

example : CMYKColor.fromRgb 0 0 0 = some ⟨0, 0, 0, 100⟩ := by decide
example : CMYKColor.fromRgb 1 1 1 = some ⟨0, 0, 0, 0⟩ := by
  norm_num [CMYKColor.fromRgb]
example : CMYKColor.fromRgb (1/2) (1/2) (1/2) = some ⟨0, 0, 0, 50⟩ := by
  norm_num [CMYKColor.fromRgb]
example : gradientPixel ⟨0,0,0,0⟩ ⟨0,0,0,100⟩ 2 1 = (0, 0, 0, 255) := by
  have h255 : pyInt (255 : ℚ) = 255 := pyInt_eq (by norm_num) (by norm_num) (by norm_num)
  simp only [gradientPixel, gradientChannel, gradientT]
  norm_num [pyInt_zero, h255]
example : vignetteAlpha 10 1 (1/4) 0 0 2 0 = 1 := by
  have h52 : pyInt ((5 : ℚ) / 2) = 2 := pyInt_eq (by norm_num) (by norm_num) (by norm_num)
  simp only [vignetteAlpha]
  norm_num [h52, pyInt_zero]
example : vignetteAlpha 10 1 (1/4) 0 0 1 0 = 1/2 := by
  have h52 : pyInt ((5 : ℚ) / 2) = 2 := pyInt_eq (by norm_num) (by norm_num) (by norm_num)
  simp only [vignetteAlpha]
  norm_num [h52, pyInt_zero, smoothstep]

/-! ## Python strings, paths, extension remapping -/

/-- Python strings are modelled as lists of characters. -/
abbrev PyStr := List Char

/-- Embed a Lean string literal as a Python string. -/
def pstr (s : String) : PyStr := s.data

/-- Python `str.lower()` (paths here are ASCII). -/
def pyLower (s : PyStr) : PyStr := s.map Char.toLower

/-- Python `str.endswith(suffix)`. -/
def pyEndsWith (s suffix : PyStr) : Bool := decide (suffix <:+ s)

/-- The tuple test `path.lower().endswith(('.tif', '.tiff', '.jpg', '.jpeg'))`
from the CMYK save routines. -/
def hasCmykCapableExt (p : PyStr) : Bool :=
  pyEndsWith (pyLower p) (pstr ".tif") || pyEndsWith (pyLower p) (pstr ".tiff")
    || pyEndsWith (pyLower p) (pstr ".jpg") || pyEndsWith (pyLower p) (pstr ".jpeg")

/-- The extension-remapping step shared verbatim by `ensure_cmyk_image`,
`create_cmyk_gradient_image` and `apply_cmyk_vignette`
(source: `color_management.py` lines 149-154, 230-235, 305-310). -/
def remapCmykExtension (p : PyStr) : PyStr :=
  if pyEndsWith (pyLower p) (pstr ".png") then p.take (p.length - 4) ++ pstr ".jpg"
  else if hasCmykCapableExt p then p
  else p ++ pstr ".jpg"

/-! ## Images and the filesystem -/

/-- Image color modes as used by the pipeline. -/
inductive Mode
  | RGB | RGBA | CMYK | L | LA | P
deriving DecidableEq

/-- Abstract image contents: a free record of the image operations that built
the image, so theorems can state exactly which conversion produced a file. -/
inductive ImgData
  | source (path : PyStr)
  | convert (m : Mode) (d : ImgData)
  | compositeWhite (d : ImgData)
  | profileTransform (d : ImgData)
  | resize (w : ℕ) (d : ImgData)
  | gradient (width height : ℕ) (top bottom : CMYKColor)
  | vignette (edgeFade bottomFade topFade : ℚ) (d : ImgData)
  | qr (payload : PyStr) (border : ℕ)
deriving DecidableEq

/-- An image file: its color mode plus its abstract contents. -/
structure PImage where
  mode : Mode
  data : ImgData
deriving DecidableEq

/-- The filesystem: an association list from paths to image files. -/
abbrev FS := List (PyStr × PImage)

/-- `os.path.exists` / `Image.open`: look a path up in the filesystem. -/
def fsGet : FS → PyStr → Option PImage
  | [], _ => none
  | (q, img) :: rest, p => if q = p then some img else fsGet rest p

/-- `img.save(path)`: write a file. -/
def fsSet (fs : FS) (p : PyStr) (img : PImage) : FS := (p, img) :: fs

/-- `img.convert(mode)`. -/
def convertMode (m : Mode) (img : PImage) : PImage := ⟨m, .convert m img.data⟩

/-- Compositing an alpha image onto an opaque white RGB background. -/
def compositeOnWhite (img : PImage) : PImage := ⟨.RGB, .compositeWhite img.data⟩

/-- Exceptions that escape the embedded functions. -/
inductive PyErr
  | imageReadError
  | importError
deriving DecidableEq

/-! ## color_management: ensure_cmyk_image, gradient, vignette -/

/-- Outcome of the ICC-profile machinery, which lives outside the repository:
whether a usable profile exists (`get_icc_profile_path` plus the
`os.path.exists` check) and whether the `ImageCms` transform pipeline
succeeds. -/
structure IccEnv where
  profileAvailable : Bool
  transformOk : Bool

/-- The direct fallback conversion of `ensure_cmyk_image`
(source: `color_management.py` lines 193-204). -/
def fallbackDirect (img : PImage) : PImage :=
  let img2 :=
    if img.mode = .RGBA then compositeOnWhite img
    else if img.mode ≠ .RGB then convertMode .RGB img
    else img
  convertMode .CMYK img2

/-- `ensure_cmyk_image` (source: `color_management.py` lines 129-206).
The `try` block converts to RGB before the profile transform, so a transform
failure leaves that conversion in place, exactly as the Python local `img`
does; the exception is swallowed and the fallback runs. -/
def ensureCmykImage (env : IccEnv) (fs : FS) (imagePath : PyStr)
    (outputPathOpt : Option PyStr) : Except PyErr (PyStr × FS) :=
  let outputPath0 := outputPathOpt.getD imagePath
  let outputPath := remapCmykExtension outputPath0
  match fsGet fs imagePath with
  | none => .error .imageReadError
  | some img =>
    if img.mode = .CMYK then
      if outputPath ≠ imagePath then .ok (outputPath, fsSet fs outputPath img)
      else .ok (outputPath, fs)
    else if env.profileAvailable then
      let img2 := if img.mode ≠ .RGB then convertMode .RGB img else img
      if env.transformOk then
        .ok (outputPath, fsSet fs outputPath ⟨.CMYK, .profileTransform img2.data⟩)
      else
        .ok (outputPath, fsSet fs outputPath (fallbackDirect img2))
    else
      .ok (outputPath, fsSet fs outputPath (fallbackDirect img))

/-- `create_cmyk_gradient_image`, filesystem view (source: lines 209-264);
the pixel contents are `gradientImagePixel`. -/
def createCmykGradientImage (fs : FS) (width height : ℕ) (top bottom : CMYKColor)
    (outputPath0 : PyStr) : PyStr × FS :=
  let outputPath := remapCmykExtension outputPath0
  (outputPath, fsSet fs outputPath ⟨.CMYK, .gradient width height top bottom⟩)

/-- `apply_cmyk_vignette`, filesystem view (source: lines 284-370);
the per-pixel arithmetic is `vignettePixel`. -/
def applyCmykVignette (fs : FS) (imagePath outputPath0 : PyStr)
    (edgeFade bottomFade topFade : ℚ) : Except PyErr (PyStr × FS) :=
  let outputPath := remapCmykExtension outputPath0
  match fsGet fs imagePath with
  | none => .error .imageReadError
  | some img =>
    let img2 := if img.mode ≠ .CMYK then convertMode .CMYK img else img
    .ok (outputPath,
         fsSet fs outputPath ⟨img2.mode, .vignette edgeFade bottomFade topFade img2.data⟩)

example : remapCmykExtension (pstr "out.png") = pstr "out.jpg" := by decide
example : remapCmykExtension (pstr "out.PNG") = pstr "out.jpg" := by decide
example : remapCmykExtension (pstr "out.tif") = pstr "out.tif" := by decide
example : remapCmykExtension (pstr "out") = pstr "out.jpg" := by decide

/-! ## Decimal rendering: Python str() of the interpolated values -/

/-- Base-10 digits, least significant first, computed with structural fuel
so that closed instances evaluate in the kernel. -/
def natDigitsAux : ℕ → ℕ → List ℕ
  | _, 0 => []
  | 0, _ + 1 => []
  | fuel + 1, n + 1 => ((n + 1) % 10) :: natDigitsAux fuel ((n + 1) / 10)

/-- Agreement with Mathlib's `Nat.digits` once the fuel covers the input. -/
lemma natDigitsAux_eq_digits : ∀ (fuel n : ℕ), n ≤ fuel →
    natDigitsAux fuel n = Nat.digits 10 n
  | _, 0, _ => by cases ‹ℕ› <;> simp [natDigitsAux]
  | 0, _ + 1, h => absurd h (by omega)
  | fuel + 1, n + 1, h => by
    rw [natDigitsAux, Nat.digits_def' (by norm_num : (1:ℕ) < 10) (Nat.succ_pos n)]
    congr 1
    have hlt := Nat.div_lt_self (Nat.succ_pos n) (by norm_num : 1 < 10)
    exact natDigitsAux_eq_digits fuel ((n + 1) / 10) (by omega)

/-- Python `str(n)` for a natural number. -/
def pyStrNat (n : ℕ) : PyStr :=
  if n = 0 then ['0'] else ((natDigitsAux n n).map Nat.digitChar).reverse

lemma pyStrNat_eq (n : ℕ) :
    pyStrNat n = if n = 0 then ['0'] else ((Nat.digits 10 n).map Nat.digitChar).reverse := by
  rw [pyStrNat, natDigitsAux_eq_digits n n le_rfl]

/-- Digits below ten print as digit characters. -/
lemma digitChar_isDigit : ∀ d < 10, (Nat.digitChar d).isDigit = true := by decide

/-- `Nat.digitChar` is injective below ten. -/
lemma digitChar_injOn : ∀ d1 < 10, ∀ d2 < 10,
    Nat.digitChar d1 = Nat.digitChar d2 → d1 = d2 := by decide

lemma map_digitChar_inj : ∀ (l1 l2 : List ℕ), (∀ d ∈ l1, d < 10) → (∀ d ∈ l2, d < 10) →
    l1.map Nat.digitChar = l2.map Nat.digitChar → l1 = l2
  | [], [], _, _, _ => rfl
  | [], _ :: _, _, _, h => by simp at h
  | _ :: _, [], _, _, h => by simp at h
  | a :: l1, b :: l2, h1, h2, h => by
    simp only [List.map_cons, List.cons.injEq] at h
    have ha := h1 a (by simp)
    have hb := h2 b (by simp)
    have : a = b := digitChar_injOn a ha b hb h.1
    rw [this, map_digitChar_inj l1 l2 (fun d hd => h1 d (by simp [hd]))
      (fun d hd => h2 d (by simp [hd])) h.2]

/-- Every character of `pyStrNat n` is a decimal digit. -/
lemma pyStrNat_isDigit {c : Char} {n : ℕ} (h : c ∈ pyStrNat n) : c.isDigit = true := by
  rw [pyStrNat_eq] at h
  split at h
  · simp only [List.mem_singleton] at h
    subst h; decide
  · rw [List.mem_reverse, List.mem_map] at h
    obtain ⟨d, hd, rfl⟩ := h
    exact digitChar_isDigit d (Nat.digits_lt_base (by norm_num) hd)

lemma pyStrNat_ne_nil (n : ℕ) : pyStrNat n ≠ [] := by
  rw [pyStrNat_eq]
  split
  · simp
  · simp only [ne_eq, List.reverse_eq_nil_iff, List.map_eq_nil_iff]
    exact Nat.digits_ne_nil_iff_ne_zero.mpr (by assumption)

lemma pyStrNat_injective : Function.Injective pyStrNat := by
  intro a b h
  rw [pyStrNat_eq, pyStrNat_eq] at h
  by_cases ha : a = 0 <;> by_cases hb : b = 0
  · omega
  · rw [if_pos ha, if_neg hb] at h
    have : (Nat.digits 10 b).map Nat.digitChar = ['0'] := by
      rw [← List.reverse_reverse (List.map _ _), ← h]; rfl
    obtain ⟨d, hd, h0⟩ : ∃ d, Nat.digits 10 b = [d] ∧ Nat.digitChar d = '0' := by
      rcases eb : Nat.digits 10 b with _ | ⟨d, rest⟩
      · rw [eb] at this; simp at this
      · rw [eb] at this
        rcases rest with _ | ⟨e, rest⟩
        · simp only [List.map_cons, List.map_nil, List.cons.injEq, and_true] at this
          exact ⟨d, rfl, this⟩
        · simp at this
    have hd10 : d < 10 := Nat.digits_lt_base (by norm_num) (by rw [hd]; simp)
    have hdz : d = 0 := digitChar_injOn d hd10 0 (by norm_num) h0
    have hOf := Nat.ofDigits_digits 10 b
    rw [hd, hdz] at hOf
    simp [Nat.ofDigits] at hOf
    exact absurd hOf.symm hb
  · rw [if_neg ha, if_pos hb] at h
    have : (Nat.digits 10 a).map Nat.digitChar = ['0'] := by
      rw [← List.reverse_reverse (List.map _ _), h]; rfl
    obtain ⟨d, hd, h0⟩ : ∃ d, Nat.digits 10 a = [d] ∧ Nat.digitChar d = '0' := by
      rcases eb : Nat.digits 10 a with _ | ⟨d, rest⟩
      · rw [eb] at this; simp at this
      · rw [eb] at this
        rcases rest with _ | ⟨e, rest⟩
        · simp only [List.map_cons, List.map_nil, List.cons.injEq, and_true] at this
          exact ⟨d, rfl, this⟩
        · simp at this
    have hd10 : d < 10 := Nat.digits_lt_base (by norm_num) (by rw [hd]; simp)
    have hdz : d = 0 := digitChar_injOn d hd10 0 (by norm_num) h0
    have hOf := Nat.ofDigits_digits 10 a
    rw [hd, hdz] at hOf
    simp [Nat.ofDigits] at hOf
    exact absurd hOf.symm ha
  · rw [if_neg ha, if_neg hb] at h
    have h2 := List.reverse_injective h
    have h3 := map_digitChar_inj _ _
      (fun d hd => Nat.digits_lt_base (by norm_num) hd)
      (fun d hd => Nat.digits_lt_base (by norm_num) hd) h2
    calc a = Nat.ofDigits 10 (Nat.digits 10 a) := (Nat.ofDigits_digits 10 a).symm
    _ = Nat.ofDigits 10 (Nat.digits 10 b) := by rw [h3]
    _ = b := Nat.ofDigits_digits 10 b

/-- Python `str` of a numeric channel value. The source interpolates Python
floats, whose `repr` is injective (it round-trips); on the `ℚ` embedding the
value is rendered from numerator and denominator, likewise injectively. -/
def pyStrRat (q : ℚ) : PyStr :=
  (if q < 0 then ['-'] else []) ++ pyStrNat q.num.natAbs ++
    (if q.den = 1 then [] else '/' :: pyStrNat q.den)

lemma pyStrRat_chars {c : Char} {q : ℚ} (h : c ∈ pyStrRat q) :
    c.isDigit = true ∨ c = '-' ∨ c = '/' := by
  rw [pyStrRat] at h
  rcases List.mem_append.1 h with h1 | h1
  · rcases List.mem_append.1 h1 with h2 | h2
    · split at h2
      · simp only [List.mem_singleton] at h2
        exact Or.inr (Or.inl h2)
      · simp at h2
    · exact Or.inl (pyStrNat_isDigit h2)
  · split at h1
    · simp at h1
    · rcases List.mem_cons.1 h1 with h2 | h2
      · exact Or.inr (Or.inr h2)
      · exact Or.inl (pyStrNat_isDigit h2)

/-- Splitting a run of `p`-characters followed by a non-`p` remainder. -/
lemma takeWhile_all_append {p : Char → Bool} {l s : List Char}
    (hl : ∀ c ∈ l, p c = true)
    (hs : s = [] ∨ ∃ c cs, s = c :: cs ∧ p c = false) :
    (l ++ s).takeWhile p = l ∧ (l ++ s).dropWhile p = s := by
  induction l with
  | nil =>
    simp only [List.nil_append]
    rcases hs with rfl | ⟨c, cs, rfl, hc⟩
    · simp
    · simp [List.takeWhile_cons, List.dropWhile_cons, hc]
  | cons a l ih =>
    have ha : p a = true := hl a (by simp)
    have h2 := ih (fun c hc => hl c (by simp [hc]))
    simp [List.takeWhile_cons, List.dropWhile_cons, ha, h2.1, h2.2]

/-- Two digit runs with non-digit (or empty) remainders can only match up
run-for-run and remainder-for-remainder. -/
lemma pyStrNat_append_inj {a b : ℕ} {s t : List Char}
    (hs : s = [] ∨ ∃ c cs, s = c :: cs ∧ c.isDigit = false)
    (ht : t = [] ∨ ∃ c cs, t = c :: cs ∧ c.isDigit = false)
    (h : pyStrNat a ++ s = pyStrNat b ++ t) : a = b ∧ s = t := by
  have h1 := takeWhile_all_append (p := Char.isDigit) (l := pyStrNat a)
    (fun c hc => pyStrNat_isDigit hc) hs
  have h2 := takeWhile_all_append (p := Char.isDigit) (l := pyStrNat b)
    (fun c hc => pyStrNat_isDigit hc) ht
  constructor
  · exact pyStrNat_injective (by rw [← h1.1, h, h2.1])
  · rw [← h1.2, h, h2.2]

/-- A separator character absent from both leading blocks splits an
append-equation uniquely. -/
lemma append_sep_inj {sep : Char} {a : List Char} : ∀ {b s t : List Char},
    sep ∉ a → sep ∉ b → a ++ sep :: s = b ++ sep :: t → a = b ∧ s = t := by
  induction a with
  | nil =>
    intro b s t _ hb h
    cases b with
    | nil => simpa using h
    | cons c bs =>
      simp only [List.nil_append, List.cons_append, List.cons.injEq] at h
      exact absurd (show sep ∈ c :: bs by rw [h.1]; exact List.mem_cons_self c bs) hb
  | cons x xs ih =>
    intro b s t ha hb h
    cases b with
    | nil =>
      simp only [List.cons_append, List.nil_append, List.cons.injEq] at h
      exact absurd (show sep ∈ x :: xs by rw [← h.1]; exact List.mem_cons_self x xs) ha
    | cons y bs =>
      simp only [List.cons_append, List.cons.injEq] at h
      obtain ⟨rfl, h2⟩ := h
      have hr := ih (fun hm => ha (List.mem_cons_of_mem x hm))
        (fun hm => hb (List.mem_cons_of_mem x hm)) h2
      exact ⟨by rw [hr.1], hr.2⟩

/-- `pyStrRat` is injective: distinct rationals render distinctly. -/
lemma pyStrRat_injective : Function.Injective pyStrRat := by
  intro q1 q2 h
  rw [pyStrRat, pyStrRat] at h
  have hside : ∀ q : ℚ, (if q.den = 1 then ([] : PyStr) else '/' :: pyStrNat q.den) = [] ∨
      ∃ c cs, (if q.den = 1 then ([] : PyStr) else '/' :: pyStrNat q.den) = c :: cs ∧
        c.isDigit = false := by
    intro q
    split
    · exact Or.inl rfl
    · exact Or.inr ⟨'/', pyStrNat q.den, rfl, by decide⟩
  have hsign : (q1 < 0) = (q2 < 0) := by
    by_cases h1 : q1 < 0 <;> by_cases h2 : q2 < 0 <;> simp only [h1, h2] <;>
      simp only [if_pos, if_neg, eq_self_iff_true] at * <;> try rfl
    · -- q1 < 0, ¬ q2 < 0 : LHS starts with '-', RHS with a digit
      rw [if_pos h1, if_neg h2] at h
      simp only [List.nil_append, List.append_assoc, List.singleton_append] at h
      rcases e : pyStrNat q2.num.natAbs with _ | ⟨c, cs⟩
      · exact absurd e (pyStrNat_ne_nil _)
      · rw [e] at h
        simp only [List.cons_append, List.cons.injEq] at h
        have : ('-' : Char).isDigit = true := by
          rw [h.1]; exact pyStrNat_isDigit (by rw [e]; exact List.mem_cons_self c cs)
        exact absurd this (by decide)
    · rw [if_neg h1, if_pos h2] at h
      simp only [List.nil_append, List.append_assoc, List.singleton_append] at h
      rcases e : pyStrNat q1.num.natAbs with _ | ⟨c, cs⟩
      · exact absurd e (pyStrNat_ne_nil _)
      · rw [e] at h
        simp only [List.cons_append, List.cons.injEq] at h
        have : ('-' : Char).isDigit = true := by
          rw [← h.1]; exact pyStrNat_isDigit (by rw [e]; exact List.mem_cons_self c cs)
        exact absurd this (by decide)
  have hcore : pyStrNat q1.num.natAbs ++
      (if q1.den = 1 then ([] : PyStr) else '/' :: pyStrNat q1.den) =
      pyStrNat q2.num.natAbs ++
      (if q2.den = 1 then ([] : PyStr) else '/' :: pyStrNat q2.den) := by
    by_cases h1 : q1 < 0
    · have h2 : q2 < 0 := by rw [← hsign] at *; exact h1
      rw [if_pos h1, if_pos h2] at h
      simpa only [List.append_assoc, List.singleton_append, List.cons_append,
        List.cons.injEq, true_and] using h
    · have h2 : ¬ q2 < 0 := by rw [← hsign] at *; exact h1
      rw [if_neg h1, if_neg h2] at h
      simpa only [List.nil_append, List.append_assoc] using h
  have hmain := pyStrNat_append_inj (hside q1) (hside q2) (by
    simpa only [List.append_assoc] using hcore)
  have hnum : q1.num.natAbs = q2.num.natAbs := hmain.1
  have hden : q1.den = q2.den := by
    rcases hmain with ⟨-, htail⟩
    by_cases d1 : q1.den = 1 <;> by_cases d2 : q2.den = 1
    · rw [d1, d2]
    · rw [if_pos d1, if_neg d2] at htail; simp at htail
    · rw [if_neg d1, if_pos d2] at htail; simp at htail
    · rw [if_neg d1, if_neg d2] at htail
      simp only [List.cons.injEq, true_and] at htail
      exact pyStrNat_injective htail
  have hnum2 : q1.num = q2.num := by
    have hs : q1.num < 0 ↔ q2.num < 0 := by
      rw [Rat.num_neg, Rat.num_neg, hsign]
    omega
  exact Rat.ext hnum2 hden

lemma not_mem_pyStrNat {sep : Char} (h1 : sep.isDigit = false) (n : ℕ) :
    sep ∉ pyStrNat n := by
  intro hm
  rw [pyStrNat_isDigit hm] at h1
  cases h1

lemma not_mem_pyStrRat {sep : Char} (h1 : sep.isDigit = false) (h2 : sep ≠ '-')
    (h3 : sep ≠ '/') (q : ℚ) : sep ∉ pyStrRat q := by
  intro hm
  rcases pyStrRat_chars hm with hd | hd | hd
  · rw [hd] at h1; cases h1
  · exact h2 hd
  · exact h3 hd

/-! ## asset_pipeline: request configs and cache keys -/

/-- `GradientConfig` (source: `asset_pipeline.py` lines 24-37). -/
structure GradientConfig where
  width_px : ℕ
  height_px : ℕ
  color_top : CMYKColor
  color_bottom : CMYKColor
  hotspot_x : Option ℚ := none
  hotspot_y : Option ℚ := none
deriving DecidableEq

/-- `VignetteConfig` (source: lines 40-50). -/
structure VignetteConfig where
  edge_fade : ℚ := 0.25
  bottom_fade : ℚ := 0.45
  top_fade : ℚ := 0.05
deriving DecidableEq

/-- `QRCodeConfig` (source: lines 53-65). -/
structure QRCodeConfig where
  data : PyStr
  size_px : ℕ := 400
  fg_color : ℤ × ℤ × ℤ × ℤ := (0, 0, 0, 255)
  bg_color : ℤ × ℤ × ℤ × ℤ := (0, 0, 0, 0)
  border : ℕ := 2
deriving DecidableEq

/-- The dataclass `repr` of a `CMYKColor`, as interpolated by the gradient
cache-key f-string. -/
def cmykStr (col : CMYKColor) : PyStr :=
  pstr "CMYKColor(c=" ++ (pyStrRat col.c ++ (pstr ", m=" ++ (pyStrRat col.m ++
    (pstr ", y=" ++ (pyStrRat col.y ++ (pstr ", k=" ++ (pyStrRat col.k ++ pstr ")")))))))

/-- The string hashed by `GradientConfig.get_cache_key` (source: line 36):
`f"{width_px}x{height_px}_{color_top}_{color_bottom}"`. -/
def gradientKeyData (cfg : GradientConfig) : PyStr :=
  pyStrNat cfg.width_px ++ (pstr "x" ++ (pyStrNat cfg.height_px ++ (pstr "_" ++
    (cmykStr cfg.color_top ++ (pstr "_" ++ cmykStr cfg.color_bottom)))))

/-- The string hashed by `VignetteConfig.get_cache_key` (source: line 49):
`f"vignette_{edge_fade}_{bottom_fade}_{top_fade}"`. -/
def vignetteKeyData (cfg : VignetteConfig) : PyStr :=
  pstr "vignette_" ++ (pyStrRat cfg.edge_fade ++ (pstr "_" ++
    (pyStrRat cfg.bottom_fade ++ (pstr "_" ++ pyStrRat cfg.top_fade))))

/-- The string hashed by `QRCodeConfig.get_cache_key` (source: line 64):
`f"qr_{data}_{size_px}_{border}"`. -/
def qrKeyData (cfg : QRCodeConfig) : PyStr :=
  pstr "qr_" ++ (cfg.data ++ (pstr "_" ++ (pyStrNat cfg.size_px ++
    (pstr "_" ++ pyStrNat cfg.border))))

/-- Modelled from the spec: `hashlib.md5(data.encode()).hexdigest()` is an
external-library digest; the spec requires only "a stable, deterministic
hash" and declares the choice "not load-bearing for correctness". It is
modelled as the identity on the canonical key-data string; every collision
statement below is made on the pre-hash strings. -/
def md5Hex (s : PyStr) : PyStr := s

def GradientConfig.getCacheKey (cfg : GradientConfig) : PyStr :=
  md5Hex (gradientKeyData cfg)

def VignetteConfig.getCacheKey (cfg : VignetteConfig) : PyStr :=
  md5Hex (vignetteKeyData cfg)

def QRCodeConfig.getCacheKey (cfg : QRCodeConfig) : PyStr :=
  md5Hex (qrKeyData cfg)

lemma underscore_not_mem_cmykStr (col : CMYKColor) : '_' ∉ cmykStr col := by
  intro hm
  rw [cmykStr] at hm
  simp only [List.mem_append] at hm
  rcases hm with h | h | h | h | h | h | h | h | h
  · exact absurd h (by decide)
  · exact not_mem_pyStrRat (by decide) (by decide) (by decide) _ h
  · exact absurd h (by decide)
  · exact not_mem_pyStrRat (by decide) (by decide) (by decide) _ h
  · exact absurd h (by decide)
  · exact not_mem_pyStrRat (by decide) (by decide) (by decide) _ h
  · exact absurd h (by decide)
  · exact not_mem_pyStrRat (by decide) (by decide) (by decide) _ h
  · exact absurd h (by decide)

/-- The dataclass repr determines the color. -/
lemma cmykStr_injective : Function.Injective cmykStr := by
  intro u v h
  rw [cmykStr, cmykStr] at h
  have h0 := List.append_cancel_left h
  have ec : pstr ", m=" = ',' :: pstr " m=" := rfl
  rw [ec] at h0
  simp only [List.cons_append] at h0
  have s1 := append_sep_inj (not_mem_pyStrRat (by decide) (by decide) (by decide) _)
    (not_mem_pyStrRat (by decide) (by decide) (by decide) _) h0
  have h1 := List.append_cancel_left s1.2
  have em : pstr ", y=" = ',' :: pstr " y=" := rfl
  rw [em] at h1
  simp only [List.cons_append] at h1
  have s2 := append_sep_inj (not_mem_pyStrRat (by decide) (by decide) (by decide) _)
    (not_mem_pyStrRat (by decide) (by decide) (by decide) _) h1
  have h2 := List.append_cancel_left s2.2
  have ey : pstr ", k=" = ',' :: pstr " k=" := rfl
  rw [ey] at h2
  simp only [List.cons_append] at h2
  have s3 := append_sep_inj (not_mem_pyStrRat (by decide) (by decide) (by decide) _)
    (not_mem_pyStrRat (by decide) (by decide) (by decide) _) h2
  have h3 := List.append_cancel_left s3.2
  have ek : pstr ")" = ')' :: ([] : PyStr) := rfl
  rw [ek] at h3
  have s4 := append_sep_inj (not_mem_pyStrRat (by decide) (by decide) (by decide) _)
    (not_mem_pyStrRat (by decide) (by decide) (by decide) _) h3
  obtain ⟨uc, um, uy, uk⟩ := u
  obtain ⟨vc, vm, vy, vk⟩ := v
  simp only at s1 s2 s3 s4
  rw [pyStrRat_injective s1.1, pyStrRat_injective s2.1,
    pyStrRat_injective s3.1, pyStrRat_injective s4.1]

/-- The gradient key string determines exactly the four hashed fields. -/
lemma gradientKeyData_inj {c1 c2 : GradientConfig}
    (h : gradientKeyData c1 = gradientKeyData c2) :
    c1.width_px = c2.width_px ∧ c1.height_px = c2.height_px ∧
    c1.color_top = c2.color_top ∧ c1.color_bottom = c2.color_bottom := by
  rw [gradientKeyData, gradientKeyData] at h
  have ex : pstr "x" = 'x' :: ([] : PyStr) := rfl
  rw [ex] at h
  simp only [List.cons_append, List.nil_append] at h
  have s1 := append_sep_inj (not_mem_pyStrNat (by decide) _)
    (not_mem_pyStrNat (by decide) _) h
  have h1 := s1.2
  have eu : pstr "_" = '_' :: ([] : PyStr) := rfl
  rw [eu] at h1
  simp only [List.cons_append, List.nil_append] at h1
  have s2 := append_sep_inj (not_mem_pyStrNat (by decide) _)
    (not_mem_pyStrNat (by decide) _) h1
  have s3 := append_sep_inj (underscore_not_mem_cmykStr _)
    (underscore_not_mem_cmykStr _) s2.2
  exact ⟨pyStrNat_injective s1.1, pyStrNat_injective s2.1,
    cmykStr_injective s3.1, cmykStr_injective s3.2⟩

/-- The vignette key string determines the three fade fields. -/
lemma vignetteKeyData_inj {c1 c2 : VignetteConfig}
    (h : vignetteKeyData c1 = vignetteKeyData c2) :
    c1.edge_fade = c2.edge_fade ∧ c1.bottom_fade = c2.bottom_fade ∧
    c1.top_fade = c2.top_fade := by
  rw [vignetteKeyData, vignetteKeyData] at h
  have h0 := List.append_cancel_left h
  have eu : pstr "_" = '_' :: ([] : PyStr) := rfl
  rw [eu] at h0
  simp only [List.cons_append, List.nil_append] at h0
  have s1 := append_sep_inj (not_mem_pyStrRat (by decide) (by decide) (by decide) _)
    (not_mem_pyStrRat (by decide) (by decide) (by decide) _) h0
  have s2 := append_sep_inj (not_mem_pyStrRat (by decide) (by decide) (by decide) _)
    (not_mem_pyStrRat (by decide) (by decide) (by decide) _) s1.2
  exact ⟨pyStrRat_injective s1.1, pyStrRat_injective s2.1, pyStrRat_injective s2.2⟩

/-- The QR key string determines payload, size and border (parsing from the
right, since the payload itself may contain underscores). -/
lemma qrKeyData_inj {c1 c2 : QRCodeConfig}
    (h : qrKeyData c1 = qrKeyData c2) :
    c1.data = c2.data ∧ c1.size_px = c2.size_px ∧ c1.border = c2.border := by
  rw [qrKeyData, qrKeyData] at h
  have h0 := List.append_cancel_left h
  have hrev := congrArg List.reverse h0
  have eu : pstr "_" = '_' :: ([] : PyStr) := rfl
  rw [eu] at hrev
  simp only [List.cons_append, List.nil_append, List.reverse_append,
    List.reverse_cons] at hrev
  simp only [List.append_assoc, List.singleton_append] at hrev
  have nm1 : ∀ n : ℕ, '_' ∉ (pyStrNat n).reverse := by
    intro n hm
    exact not_mem_pyStrNat (by decide) n (List.mem_reverse.1 hm)
  have s1 := append_sep_inj (nm1 _) (nm1 _) hrev
  have s2 := append_sep_inj (nm1 _) (nm1 _) s1.2
  refine ⟨?_, ?_, ?_⟩
  · have := List.reverse_injective s2.2
    simpa using this
  · exact pyStrNat_injective (List.reverse_injective (by simpa using s2.1))
  · exact pyStrNat_injective (List.reverse_injective (by simpa using s1.1))

/-! ## asset_pipeline: cache store and pipeline operations -/

/-- `AssetCache.get_path` (source: `asset_pipeline.py` lines 86-88). -/
def cacheGetPath (cacheDir key ext : PyStr) : PyStr :=
  cacheDir ++ (pstr "/" ++ (key ++ ext))

/-- `AssetCache.exists` (source: lines 90-92). -/
def cacheExists (fs : FS) (cacheDir key ext : PyStr) : Bool :=
  (fsGet fs (cacheGetPath cacheDir key ext)).isSome

/-- `AssetPipeline.prepare_gradient` (source: lines 122-150). The third
component records whether generation work was performed on this call. -/
def prepareGradient (fs : FS) (cacheDir : PyStr) (config : GradientConfig) :
    PyStr × FS × Bool :=
  let cacheKey := config.getCacheKey
  let outputPath := cacheGetPath cacheDir cacheKey (pstr ".png")
  if cacheExists fs cacheDir cacheKey (pstr ".png") then (outputPath, fs, false)
  else
    let generated := createCmykGradientImage fs config.width_px config.height_px
      config.color_top config.color_bottom outputPath
    (outputPath, generated.2, true)

/-- The `.png`-to-`.tif` probe used by the vignette and CMYK-asset cache
checks (source: lines 176-178 and 278-280). -/
def tifProbe (outputPath : PyStr) : PyStr :=
  if pyEndsWith (pyLower outputPath) (pstr ".png") then
    outputPath.take (outputPath.length - 4) ++ pstr ".tif"
  else outputPath

/-- The `output_name`-or-cache-key choice of output path shared by
`prepare_vignette_image` and `ensure_cmyk_asset` (source: lines 170-173 and
272-275). -/
def outputPathChoice (cacheDir defaultKey : PyStr) (outputName : Option PyStr) :
    PyStr :=
  match outputName with
  | some name => cacheGetPath cacheDir name []
  | none => cacheGetPath cacheDir defaultKey (pstr ".png")

/-- `AssetPipeline.prepare_vignette_image` (source: lines 152-205). -/
def prepareVignetteImage (env : IccEnv) (fs : FS) (cacheDir : PyStr)
    (forceCmyk : Bool) (sourcePath : PyStr) (config : VignetteConfig)
    (outputName : Option PyStr) : Except PyErr (PyStr × FS) :=
  let sourceHash := (md5Hex sourcePath).take 8
  let cacheKey := sourceHash ++ (pstr "_" ++ config.getCacheKey)
  let outputPath := outputPathChoice cacheDir cacheKey outputName
  let tifPath := tifProbe outputPath
  if (fsGet fs tifPath).isSome then .ok (tifPath, fs)
  else if (fsGet fs outputPath).isSome then .ok (outputPath, fs)
  else
    match (if forceCmyk then
        ensureCmykImage env fs sourcePath
          (some (cacheGetPath cacheDir (sourceHash ++ pstr "_cmyk") (pstr ".png")))
      else .ok (sourcePath, fs)) with
    | .error e => .error e
    | .ok srcState =>
      applyCmykVignette srcState.2 srcState.1 outputPath
        config.edge_fade config.bottom_fade config.top_fade

/-- `AssetPipeline.prepare_qr_code` (source: lines 207-254). `qrAvailable`
models whether the optional `qrcode` dependency imports; `qrMode` is the
color mode of the image the library backend returns. -/
def prepareQrCode (qrAvailable : Bool) (qrMode : Mode) (fs : FS)
    (cacheDir : PyStr) (config : QRCodeConfig) : Except PyErr (PyStr × FS) :=
  let cacheKey := config.getCacheKey
  let outputPath := cacheGetPath cacheDir cacheKey (pstr ".png")
  if cacheExists fs cacheDir cacheKey (pstr ".png") then .ok (outputPath, fs)
  else if qrAvailable then
    let img : PImage := ⟨qrMode, .qr config.data config.border⟩
    let img2 := if img.mode ≠ .CMYK then convertMode .CMYK img else img
    .ok (outputPath, fsSet fs outputPath ⟨img2.mode, .resize config.size_px img2.data⟩)
  else .error .importError

/-- `AssetPipeline.ensure_cmyk_asset` (source: lines 256-293). -/
def ensureCmykAsset (env : IccEnv) (fs : FS) (cacheDir : PyStr)
    (forceCmyk : Bool) (sourcePath : PyStr) (outputName : Option PyStr) :
    Except PyErr (PyStr × FS) :=
  if forceCmyk = false then .ok (sourcePath, fs)
  else
    let sourceHash := (md5Hex sourcePath).take 8
    let outputPath := outputPathChoice cacheDir (sourceHash ++ pstr "_cmyk") outputName
    let tifPath := tifProbe outputPath
    if (fsGet fs tifPath).isSome then .ok (tifPath, fs)
    else if (fsGet fs outputPath).isSome then .ok (outputPath, fs)
    else ensureCmykImage env fs sourcePath (some outputPath)

/-- `AssetPipeline.prepare_logo` (source: lines 295-346). -/
def prepareLogo (fs : FS) (cacheDir : PyStr) (forceCmyk : Bool)
    (logoPath : PyStr) (targetWidthPx : ℕ) (preserveTransparency : Bool) :
    Except PyErr (PyStr × FS) :=
  let sourceHash := (md5Hex logoPath).take 8
  let cacheKey := sourceHash ++ (pstr "_logo_" ++ (pyStrNat targetWidthPx ++
    (if preserveTransparency then pstr "_alpha" else [])))
  let outputPath := cacheGetPath cacheDir cacheKey (pstr ".png")
  if (fsGet fs outputPath).isSome then .ok (outputPath, fs)
  else match fsGet fs logoPath with
    | none => .error .imageReadError
    | some img =>
      let imgResized : PImage := ⟨img.mode, .resize targetWidthPx img.data⟩
      if preserveTransparency ∧ (imgResized.mode = .RGBA ∨ imgResized.mode = .LA) then
        .ok (outputPath, fsSet fs outputPath imgResized)
      else
        let img2 :=
          if imgResized.mode = .RGBA then compositeOnWhite imgResized
          else if imgResized.mode ≠ .RGB then convertMode .RGB imgResized
          else imgResized
        let img3 := if forceCmyk then convertMode .CMYK img2 else img2
        .ok (outputPath, fsSet fs outputPath img3)

/-! ## Helper lemmas about the embedded operations -/

lemma fsGet_fsSet (fs : FS) (p : PyStr) (img : PImage) :
    fsGet (fsSet fs p img) p = some img := by
  simp [fsGet, fsSet]

/-- Two suffixes of one list are comparable; with equal lengths they agree. -/
lemma suffix_eq_of_length {s t l : PyStr} (hs : s <:+ l) (ht : t <:+ l)
    (hlen : s.length = t.length) : s = t := by
  rcases List.suffix_or_suffix_of_suffix hs ht with h | h
  · exact h.eq_of_length hlen
  · exact (h.eq_of_length hlen.symm).symm

/-- Appending `.jpg` can never produce a path ending in `.png`. -/
lemma not_png_of_append_jpg (p : PyStr) :
    pyEndsWith (pyLower (p ++ pstr ".jpg")) (pstr ".png") = false := by
  simp only [pyEndsWith, decide_eq_false_iff_not]
  intro hsuf
  have hjpg : pstr ".jpg" <:+ pyLower (p ++ pstr ".jpg") := by
    rw [pyLower, List.map_append]
    exact List.suffix_append _ _
  have := suffix_eq_of_length hsuf hjpg rfl
  exact absurd this (by decide)

/-- A path bearing one of the four-channel-capable extensions does not end
in `.png`. -/
lemma not_png_of_capable {p : PyStr} (h : hasCmykCapableExt p = true) :
    pyEndsWith (pyLower p) (pstr ".png") = false := by
  simp only [hasCmykCapableExt, Bool.or_eq_true, pyEndsWith, decide_eq_true_eq] at h
  simp only [pyEndsWith, decide_eq_false_iff_not]
  intro hpng
  rcases h with ((h | h) | h) | h <;>
    rcases List.suffix_or_suffix_of_suffix hpng h with hh | hh <;>
      exact absurd hh (by decide)

/-- `ensure_cmyk_image` always returns the extension-remapped output path. -/
lemma ensureCmykImage_path {env : IccEnv} {fs : FS} {ip : PyStr}
    {opOpt : Option PyStr} {r : PyStr × FS}
    (h : ensureCmykImage env fs ip opOpt = .ok r) :
    r.1 = remapCmykExtension (opOpt.getD ip) := by
  rw [ensureCmykImage] at h
  rcases hget : fsGet fs ip with _ | img <;> rw [hget] at h <;> dsimp only at h
  · simp at h
  · split_ifs at h <;> simp only [Except.ok.injEq] at h <;> rw [← h]

/-- On a readable source, `ensure_cmyk_image` succeeds and the file written
at (or already present at) the returned path is in CMYK mode. -/
lemma ensureCmykImage_cmyk (env : IccEnv) (fs : FS) (ip : PyStr)
    (opOpt : Option PyStr) {img : PImage} (hopen : fsGet fs ip = some img) :
    ∃ fs' d, ensureCmykImage env fs ip opOpt =
        .ok (remapCmykExtension (opOpt.getD ip), fs') ∧
      fsGet fs' (remapCmykExtension (opOpt.getD ip)) = some ⟨Mode.CMYK, d⟩ := by
  rw [ensureCmykImage, hopen]
  dsimp only
  split_ifs with hmode hne hprof hok
  · refine ⟨_, img.data, rfl, ?_⟩
    rw [fsGet_fsSet]
    congr 1
    cases img
    simp only at hmode
    rw [hmode]
  · have heq : remapCmykExtension (opOpt.getD ip) = ip := by
      by_contra hc
      exact hne hc
    refine ⟨fs, img.data, rfl, ?_⟩
    rw [heq, hopen]
    congr 1
    cases img
    simp only at hmode
    rw [hmode]
  all_goals exact ⟨_, _, rfl, (fsGet_fsSet ..).trans rfl⟩

/-! ## Claim theorems -/

/-- C4: `CMYKColor.from_rgb` implements the standard subtractive conversion:
black maps to (0,0,0,100), white to (0,0,0,0), greys r=g=b=v to
c=m=y=0 and k=(1-v)·100, and whenever k = 1-max(r,g,b) < 1 the general
formula ((1-r-k)/(1-k)·100, …, k·100) is returned. -/
theorem fromRgb_standard_conversion :
    (CMYKColor.fromRgb 0 0 0 = some ⟨0, 0, 0, 100⟩) ∧
    (CMYKColor.fromRgb 1 1 1 = some ⟨0, 0, 0, 0⟩) ∧
    (∀ v : ℚ, 0 ≤ v → v ≤ 1 →
      CMYKColor.fromRgb v v v = some ⟨0, 0, 0, (1 - v) * 100⟩) ∧
    (∀ r g b : ℚ, 0 ≤ r → r ≤ 1 → 0 ≤ g → g ≤ 1 → 0 ≤ b → b ≤ 1 →
      1 - max r (max g b) < 1 →
      CMYKColor.fromRgb r g b =
        some ⟨(1 - r - (1 - max r (max g b))) / (1 - (1 - max r (max g b))) * 100,
              (1 - g - (1 - max r (max g b))) / (1 - (1 - max r (max g b))) * 100,
              (1 - b - (1 - max r (max g b))) / (1 - (1 - max r (max g b))) * 100,
              (1 - max r (max g b)) * 100⟩) := by
  refine ⟨by decide, by norm_num [CMYKColor.fromRgb], ?_, ?_⟩
  · intro v h0 h1
    by_cases hv : v = 0
    · subst hv
      norm_num [CMYKColor.fromRgb]
    · simp only [CMYKColor.fromRgb]
      rw [if_neg (by simp [hv])]
      have hmax : max v (max v v) = v := by simp
      rw [hmax]
      rw [if_neg (by intro hcond; exact hv (by linarith))]
      rw [if_neg (by intro hcond; exact hv (by linarith))]
      have e0 : (1 : ℚ) - v - (1 - v) = 0 := by ring
      rw [e0, zero_div, zero_mul]
  · intro r g b hr0 hr1 hg0 hg1 hb0 hb1 hk
    simp only [CMYKColor.fromRgb]
    rw [if_neg (by rintro ⟨rfl, rfl, rfl⟩; norm_num at hk)]
    rw [if_neg (by intro hcond; linarith)]
    rw [if_neg (by intro hcond; linarith)]

/-- Witness for C4 at v = 1/2 and at (r,g,b) = (1/2, 1/4, 1). -/
theorem fromRgb_standard_conversion_witness :
    CMYKColor.fromRgb (1/2) (1/2) (1/2) = some ⟨0, 0, 0, (1 - 1/2) * 100⟩ ∧
    CMYKColor.fromRgb (1/2) (1/4) 1 =
      some ⟨(1 - 1/2 - (1 - max (1/2) (max (1/4) 1))) /
              (1 - (1 - max (1/2) (max (1/4) 1))) * 100,
            (1 - 1/4 - (1 - max (1/2) (max (1/4) 1))) /
              (1 - (1 - max (1/2) (max (1/4) 1))) * 100,
            (1 - 1 - (1 - max (1/2) (max (1/4) 1))) /
              (1 - (1 - max (1/2) (max (1/4) 1))) * 100,
            (1 - max (1/2) (max (1/4) 1)) * 100⟩ :=
  ⟨fromRgb_standard_conversion.2.2.1 (1/2) (by norm_num) (by norm_num),
   fromRgb_standard_conversion.2.2.2 (1/2) (1/4) 1 (by norm_num) (by norm_num)
     (by norm_num) (by norm_num) (by norm_num) le_rfl
     (by rw [max_eq_right (by norm_num : (1/4 : ℚ) ≤ 1),
             max_eq_right (by norm_num : (1/2 : ℚ) ≤ 1)]; norm_num)⟩

/-- C5: `CMYKColor.from_rgb` is total on [0,1]³: it always returns a color
(the embedded `none` models Python's `ZeroDivisionError` and is never hit),
and in the general branch the divisor 1-k is strictly positive. -/
theorem fromRgb_total_on_unit_interval (r g b : ℚ)
    (hr0 : 0 ≤ r) (_hr1 : r ≤ 1) (_hg0 : 0 ≤ g) (_hg1 : g ≤ 1)
    (_hb0 : 0 ≤ b) (_hb1 : b ≤ 1) :
    (∃ col, CMYKColor.fromRgb r g b = some col) ∧
    (¬(r = 0 ∧ g = 0 ∧ b = 0) → 1 - max r (max g b) ≠ 1 →
      0 < 1 - (1 - max r (max g b))) := by
  constructor
  · simp only [CMYKColor.fromRgb]
    split_ifs with h1 h2 h3
    · exact ⟨_, rfl⟩
    · exact ⟨_, rfl⟩
    · exact absurd (by linarith : (1 : ℚ) - max r (max g b) = 1) h2
    · exact ⟨_, rfl⟩
  · intro _ hk1
    have hrmax : r ≤ max r (max g b) := le_max_left _ _
    have hne : max r (max g b) ≠ 0 := by
      intro h0
      exact hk1 (by rw [h0]; ring)
    have : 0 < max r (max g b) := lt_of_le_of_ne (by linarith) (Ne.symm hne)
    linarith

/-- Witness for C5 at (1/2, 0, 1). -/
theorem fromRgb_total_on_unit_interval_witness :
    (∃ col, CMYKColor.fromRgb (1/2) 0 1 = some col) ∧
    (¬((1:ℚ)/2 = 0 ∧ (0:ℚ) = 0 ∧ (1:ℚ) = 0) →
      1 - max (1/2 : ℚ) (max 0 1) ≠ 1 → 0 < 1 - (1 - max (1/2 : ℚ) (max 0 1))) :=
  fromRgb_total_on_unit_interval (1/2) 0 1 (by norm_num) (by norm_num)
    le_rfl (by norm_num) (by norm_num) le_rfl

/-- C8: the CMYK save routines remap the output extension: a `.png` path
(case-insensitively) is rewritten to `.jpg` and `.png` is never returned;
other unsupported or missing extensions default to `.jpg`; the four
four-channel-capable extensions are kept unchanged; and the three saving
functions all return the remapped path. -/
theorem cmyk_save_extension_remapping :
    (∀ p : PyStr, pyEndsWith (pyLower (remapCmykExtension p)) (pstr ".png") = false) ∧
    (∀ p : PyStr, pyEndsWith (pyLower p) (pstr ".png") = true →
      pyEndsWith (remapCmykExtension p) (pstr ".jpg") = true) ∧
    (∀ p : PyStr, hasCmykCapableExt p = true → remapCmykExtension p = p) ∧
    (∀ p : PyStr, pyEndsWith (pyLower p) (pstr ".png") = false →
      hasCmykCapableExt p = false → remapCmykExtension p = p ++ pstr ".jpg") ∧
    (∀ (env : IccEnv) (fs : FS) (ip op : PyStr) (r : PyStr × FS),
      ensureCmykImage env fs ip (some op) = .ok r → r.1 = remapCmykExtension op) ∧
    (∀ (fs : FS) (w h : ℕ) (top bottom : CMYKColor) (op : PyStr),
      (createCmykGradientImage fs w h top bottom op).1 = remapCmykExtension op) ∧
    (∀ (fs : FS) (ip op : PyStr) (e bf tf : ℚ) (r : PyStr × FS),
      applyCmykVignette fs ip op e bf tf = .ok r → r.1 = remapCmykExtension op) := by
  refine ⟨?_, ?_, ?_, ?_, ?_, ?_, ?_⟩
  · intro p
    rw [remapCmykExtension]
    split_ifs with h1 h2
    · exact not_png_of_append_jpg _
    · simpa using h1
    · exact not_png_of_append_jpg _
  · intro p hp
    rw [remapCmykExtension, if_pos hp]
    simp only [pyEndsWith, decide_eq_true_eq]
    exact List.suffix_append _ _
  · intro p h
    rw [remapCmykExtension, if_neg (by simp [not_png_of_capable h]), if_pos h]
  · intro p h1 h2
    rw [remapCmykExtension, if_neg (by simp [h1]), if_neg (by simp [h2])]
  · intro env fs ip op r h
    exact ensureCmykImage_path h
  · intro fs w h top bottom op
    rfl
  · intro fs ip op e bf tf r h
    rw [applyCmykVignette] at h
    rcases hget : fsGet fs ip with _ | img <;> rw [hget] at h <;> dsimp only at h
    · simp at h
    · cases h
      rfl

/-- Witness for C8 at "out.png" and "a.tif". -/
theorem cmyk_save_extension_remapping_witness :
    pyEndsWith (remapCmykExtension (pstr "out.png")) (pstr ".jpg") = true ∧
    remapCmykExtension (pstr "a.tif") = pstr "a.tif" :=
  ⟨cmyk_save_extension_remapping.2.1 (pstr "out.png") (by decide),
   cmyk_save_extension_remapping.2.2.1 (pstr "a.tif") (by decide)⟩

/-- C9: when a profile is available but the transform fails, the failure is
absorbed: `ensure_cmyk_image` still returns `.ok` with the remapped path, and
the file written there is the direct fallback conversion applied to the image
as the `try` block left it (already coerced to RGB). -/
theorem ensureCmykImage_profile_failure_falls_back
    (env : IccEnv) (fs : FS) (ip op : PyStr) (img : PImage)
    (hopen : fsGet fs ip = some img) (hmode : img.mode ≠ Mode.CMYK)
    (hprof : env.profileAvailable = true) (hfail : env.transformOk = false) :
    ensureCmykImage env fs ip (some op) =
      .ok (remapCmykExtension op,
        fsSet fs (remapCmykExtension op)
          (fallbackDirect (if img.mode ≠ Mode.RGB then convertMode Mode.RGB img
                           else img))) := by
  rw [ensureCmykImage, hopen]
  dsimp only
  rw [if_neg hmode, if_pos hprof, if_neg (by simp [hfail])]
  rfl

/-- Witness for C9: an RGBA source, profile present, failing transform. -/
theorem ensureCmykImage_profile_failure_falls_back_witness :
    ensureCmykImage ⟨true, false⟩
      [(pstr "src.png", ⟨Mode.RGBA, .source (pstr "src.png")⟩)]
      (pstr "src.png") (some (pstr "cache/x.png")) =
      .ok (remapCmykExtension (pstr "cache/x.png"),
        fsSet [(pstr "src.png", ⟨Mode.RGBA, .source (pstr "src.png")⟩)]
          (remapCmykExtension (pstr "cache/x.png"))
          (fallbackDirect (if (⟨Mode.RGBA, .source (pstr "src.png")⟩ : PImage).mode
              ≠ Mode.RGB then
              convertMode Mode.RGB ⟨Mode.RGBA, .source (pstr "src.png")⟩
            else ⟨Mode.RGBA, .source (pstr "src.png")⟩))) :=
  ensureCmykImage_profile_failure_falls_back ⟨true, false⟩
    [(pstr "src.png", ⟨Mode.RGBA, .source (pstr "src.png")⟩)]
    (pstr "src.png") (pstr "cache/x.png")
    ⟨Mode.RGBA, .source (pstr "src.png")⟩ (by decide) (by decide) rfl rfl

/-- Whatever mode the source has, the vignette pass saves a CMYK image at
the remapped output path. -/
lemma applyCmykVignette_cmyk
    (fs : FS) (ip op : PyStr) (e bf tf : ℚ) {img : PImage}
    (hopen : fsGet fs ip = some img) :
    ∃ fs', applyCmykVignette fs ip op e bf tf = .ok (remapCmykExtension op, fs') ∧
      fsGet fs' (remapCmykExtension op) =
        some ⟨Mode.CMYK, .vignette e bf tf
          ((if img.mode ≠ Mode.CMYK then convertMode Mode.CMYK img else img).data)⟩ := by
  rw [applyCmykVignette, hopen]
  dsimp only
  refine ⟨_, rfl, ?_⟩
  rw [fsGet_fsSet]
  by_cases h : img.mode = Mode.CMYK
  · simp [h]
  · simp [h, convertMode]

/-- C10: `apply_cmyk_vignette` accepts any source mode: whatever mode the
opened image has, the saved result is a CMYK-mode image (converted before the
fade pass when necessary). -/
theorem applyCmykVignette_any_mode_yields_cmyk
    (fs : FS) (ip op : PyStr) (e bf tf : ℚ) (img : PImage)
    (hopen : fsGet fs ip = some img) :
    ∃ fs', applyCmykVignette fs ip op e bf tf = .ok (remapCmykExtension op, fs') ∧
      fsGet fs' (remapCmykExtension op) =
        some ⟨Mode.CMYK, .vignette e bf tf
          ((if img.mode ≠ Mode.CMYK then convertMode Mode.CMYK img else img).data)⟩ :=
  applyCmykVignette_cmyk fs ip op e bf tf hopen

/-- Witness for C10 on an RGB source image. -/
theorem applyCmykVignette_any_mode_yields_cmyk_witness :
    ∃ fs', applyCmykVignette [(pstr "s.tif", ⟨Mode.RGB, .source (pstr "s.tif")⟩)]
        (pstr "s.tif") (pstr "o.png") (1/4) (9/20) (1/20) =
        .ok (remapCmykExtension (pstr "o.png"), fs') ∧
      fsGet fs' (remapCmykExtension (pstr "o.png")) =
        some ⟨Mode.CMYK, .vignette (1/4) (9/20) (1/20)
          ((if (⟨Mode.RGB, .source (pstr "s.tif")⟩ : PImage).mode ≠ Mode.CMYK then
              convertMode Mode.CMYK ⟨Mode.RGB, .source (pstr "s.tif")⟩
            else ⟨Mode.RGB, .source (pstr "s.tif")⟩).data)⟩ :=
  applyCmykVignette_any_mode_yields_cmyk _ _ _ _ _ _
    ⟨Mode.RGB, .source (pstr "s.tif")⟩ (by decide)

/-- C1 (code defect, evaluated at the failing input): two successive
`prepare_gradient` calls for the same request on an empty cache both perform
generation work — the cache probe looks for `<key>.png` while the gradient
was written at the remapped `<key>.jpg` — and both return a path holding no
file, while the generated file sits at the remapped path. -/
theorem prepareGradient_regenerates_on_second_call :
    (prepareGradient [] (pstr "cache")
        ⟨2, 2, ⟨0, 0, 0, 0⟩, ⟨0, 0, 0, 100⟩, none, none⟩).2.2 = true ∧
    (prepareGradient
        (prepareGradient [] (pstr "cache")
          ⟨2, 2, ⟨0, 0, 0, 0⟩, ⟨0, 0, 0, 100⟩, none, none⟩).2.1
        (pstr "cache")
        ⟨2, 2, ⟨0, 0, 0, 0⟩, ⟨0, 0, 0, 100⟩, none, none⟩).2.2 = true ∧
    (prepareGradient
        (prepareGradient [] (pstr "cache")
          ⟨2, 2, ⟨0, 0, 0, 0⟩, ⟨0, 0, 0, 100⟩, none, none⟩).2.1
        (pstr "cache")
        ⟨2, 2, ⟨0, 0, 0, 0⟩, ⟨0, 0, 0, 100⟩, none, none⟩).1 =
      (prepareGradient [] (pstr "cache")
        ⟨2, 2, ⟨0, 0, 0, 0⟩, ⟨0, 0, 0, 100⟩, none, none⟩).1 ∧
    fsGet (prepareGradient [] (pstr "cache")
        ⟨2, 2, ⟨0, 0, 0, 0⟩, ⟨0, 0, 0, 100⟩, none, none⟩).2.1
      (prepareGradient [] (pstr "cache")
        ⟨2, 2, ⟨0, 0, 0, 0⟩, ⟨0, 0, 0, 100⟩, none, none⟩).1 = none ∧
    fsGet (prepareGradient [] (pstr "cache")
        ⟨2, 2, ⟨0, 0, 0, 0⟩, ⟨0, 0, 0, 100⟩, none, none⟩).2.1
      (remapCmykExtension ((prepareGradient [] (pstr "cache")
        ⟨2, 2, ⟨0, 0, 0, 0⟩, ⟨0, 0, 0, 100⟩, none, none⟩).1)) ≠ none := by
  decide

/-- C3 counterexample: with `force_cmyk = True`, `prepare_logo` on an RGBA
source with `preserve_transparency = True` returns a path whose file is RGBA,
not CMYK. -/
theorem prepareLogo_preserves_rgba_cex :
    ((prepareLogo [(pstr "logo.png", ⟨Mode.RGBA, .source (pstr "logo.png")⟩)]
        (pstr "cache") true (pstr "logo.png") 100 true).map
      (fun r => (fsGet r.2 r.1).map PImage.mode)) = .ok (some Mode.RGBA) ∧
    Mode.RGBA ≠ Mode.CMYK :=
  ⟨rfl, by decide⟩

/-- C3 (amended): with `force_cmyk = True` the QR, CMYK-asset and vignette
operations return, on a cache miss, a path holding a CMYK-mode file, and
`prepare_gradient` writes a CMYK gradient at the extension-remapped cache
path (although it returns the un-remapped path); the exception is
`prepare_logo` with `preserve_transparency = True` on an alpha source. -/
theorem pipeline_outputs_cmyk_except_logo_alpha :
    (∀ (qrMode : Mode) (fs : FS) (dir : PyStr) (cfg : QRCodeConfig),
      cacheExists fs dir cfg.getCacheKey (pstr ".png") = false →
      ∃ fs', prepareQrCode true qrMode fs dir cfg =
          .ok (cacheGetPath dir cfg.getCacheKey (pstr ".png"), fs') ∧
        (fsGet fs' (cacheGetPath dir cfg.getCacheKey (pstr ".png"))).map
          PImage.mode = some Mode.CMYK) ∧
    (∀ (env : IccEnv) (fs : FS) (dir sp : PyStr) (outputName : Option PyStr)
        (img : PImage),
      fsGet fs sp = some img →
      fsGet fs (tifProbe (outputPathChoice dir
        ((md5Hex sp).take 8 ++ pstr "_cmyk") outputName)) = none →
      fsGet fs (outputPathChoice dir
        ((md5Hex sp).take 8 ++ pstr "_cmyk") outputName) = none →
      ∃ p fs', ensureCmykAsset env fs dir true sp outputName = .ok (p, fs') ∧
        (fsGet fs' p).map PImage.mode = some Mode.CMYK) ∧
    (∀ (env : IccEnv) (fs : FS) (dir sp : PyStr) (cfg : VignetteConfig)
        (outputName : Option PyStr) (img : PImage) (forceCmyk : Bool),
      fsGet fs sp = some img →
      fsGet fs (tifProbe (outputPathChoice dir
        ((md5Hex sp).take 8 ++ (pstr "_" ++ cfg.getCacheKey)) outputName)) = none →
      fsGet fs (outputPathChoice dir
        ((md5Hex sp).take 8 ++ (pstr "_" ++ cfg.getCacheKey)) outputName) = none →
      ∃ p fs', prepareVignetteImage env fs dir forceCmyk sp cfg outputName =
          .ok (p, fs') ∧
        (fsGet fs' p).map PImage.mode = some Mode.CMYK) ∧
    (∀ (fs : FS) (dir : PyStr) (cfg : GradientConfig),
      cacheExists fs dir cfg.getCacheKey (pstr ".png") = false →
      fsGet (prepareGradient fs dir cfg).2.1
        (remapCmykExtension (cacheGetPath dir cfg.getCacheKey (pstr ".png"))) =
        some ⟨Mode.CMYK, .gradient cfg.width_px cfg.height_px
          cfg.color_top cfg.color_bottom⟩) := by
  refine ⟨?_, ?_, ?_, ?_⟩
  · intro qrMode fs dir cfg hmiss
    rw [prepareQrCode]
    dsimp only
    rw [if_neg (by simp [hmiss]), if_pos rfl]
    refine ⟨_, rfl, ?_⟩
    rw [fsGet_fsSet]
    by_cases h : qrMode = Mode.CMYK <;> simp [h, convertMode]
  · intro env fs dir sp outputName img hopen htif hout
    rw [ensureCmykAsset]
    rw [if_neg (by simp), if_neg (by simp [htif]), if_neg (by simp [hout])]
    obtain ⟨fs', d, heq, hget⟩ := ensureCmykImage_cmyk env fs sp
      (some (outputPathChoice dir ((md5Hex sp).take 8 ++ pstr "_cmyk")
        outputName)) hopen
    refine ⟨_, fs', heq, ?_⟩
    rw [hget]
    rfl
  · intro env fs dir sp cfg outputName img forceCmyk hopen htif hout
    rw [prepareVignetteImage]
    rw [if_neg (by simp [htif]), if_neg (by simp [hout])]
    cases forceCmyk
    · rw [if_neg (by simp)]
      obtain ⟨fs', heq, hget⟩ := applyCmykVignette_cmyk fs sp
        (outputPathChoice dir ((md5Hex sp).take 8 ++ (pstr "_" ++ cfg.getCacheKey))
          outputName)
        cfg.edge_fade cfg.bottom_fade cfg.top_fade hopen
      dsimp only
      rw [heq]
      refine ⟨_, fs', rfl, ?_⟩
      rw [hget]
      rfl
    · rw [if_pos rfl]
      obtain ⟨fs2, d2, heq2, hget2⟩ := ensureCmykImage_cmyk env fs sp
        (some (cacheGetPath dir ((md5Hex sp).take 8 ++ pstr "_cmyk")
          (pstr ".png"))) hopen
      rw [heq2]
      obtain ⟨fs3, heq3, hget3⟩ := applyCmykVignette_cmyk fs2 _
        (outputPathChoice dir ((md5Hex sp).take 8 ++ (pstr "_" ++ cfg.getCacheKey))
          outputName)
        cfg.edge_fade cfg.bottom_fade cfg.top_fade hget2
      dsimp only
      rw [heq3]
      refine ⟨_, fs3, rfl, ?_⟩
      rw [hget3]
      rfl
  · intro fs dir cfg hmiss
    rw [prepareGradient]
    rw [if_neg (by simp [hmiss])]
    exact fsGet_fsSet ..

/-- Witness for the amended C3 on a concrete QR request against an empty
cache. -/
theorem pipeline_outputs_cmyk_except_logo_alpha_witness :
    ∃ fs', prepareQrCode true Mode.RGB [] (pstr "cache")
        ⟨pstr "https://example.com", 400, (0, 0, 0, 255), (0, 0, 0, 0), 2⟩ =
        .ok (cacheGetPath (pstr "cache")
          (QRCodeConfig.getCacheKey
            ⟨pstr "https://example.com", 400, (0, 0, 0, 255), (0, 0, 0, 0), 2⟩)
          (pstr ".png"), fs') ∧
      (fsGet fs' (cacheGetPath (pstr "cache")
        (QRCodeConfig.getCacheKey
          ⟨pstr "https://example.com", 400, (0, 0, 0, 255), (0, 0, 0, 0), 2⟩)
        (pstr ".png"))).map PImage.mode = some Mode.CMYK :=
  pipeline_outputs_cmyk_except_logo_alpha.1 Mode.RGB [] (pstr "cache")
    ⟨pstr "https://example.com", 400, (0, 0, 0, 255), (0, 0, 0, 0), 2⟩ (by decide)

lemma gradientT_zero (h : ℕ) : gradientT h 0 = 0 := by
  rw [gradientT]
  split <;> simp

lemma gradientT_last {h : ℕ} (hh : 2 ≤ h) : gradientT h (h - 1) = 1 := by
  rw [gradientT, if_pos (by omega)]
  have hc : ((h - 1 : ℕ) : ℚ) = (h : ℚ) - 1 := by
    rw [Nat.cast_sub (by omega)]
    norm_num
  rw [hc]
  apply div_self
  have : (2 : ℚ) ≤ (h : ℚ) := by exact_mod_cast hh
  linarith

/-- C6 counterexample: at height 1 the single row carries `color_top`, so the
claimed bottom-row endpoint (`row height-1 equals color_bottom within 1/255
per channel`) fails: the black channel is 0 while `bottom.k·2.55 = 255`. -/
theorem gradient_bottom_row_height_one_cex :
    gradientImagePixel 1 1 ⟨0, 0, 0, 0⟩ ⟨0, 0, 0, 100⟩ 0 (1 - 1) = (0, 0, 0, 0) ∧
    ¬ |((gradientImagePixel 1 1 ⟨0, 0, 0, 0⟩ ⟨0, 0, 0, 100⟩ 0 (1 - 1)).2.2.2 : ℚ)
        - (100 : ℚ) * 2.55| < 1 := by
  have hpix : gradientImagePixel 1 1 ⟨0, 0, 0, 0⟩ ⟨0, 0, 0, 100⟩ 0 (1 - 1) =
      (0, 0, 0, 0) := by
    simp only [gradientImagePixel, gradientPixel, gradientChannel, gradientT]
    norm_num [pyInt_zero]
  refine ⟨hpix, ?_⟩
  rw [hpix]
  norm_num

/-- C6 (amended): every pixel of row `y` equals the per-channel linear
interpolation with `t = y/(height-1)` (`t = 0` when height = 1) truncated to
0..255; row 0 carries `color_top`; for height ≥ 2 row height-1 carries
`color_bottom`; and the truncation error is below one 0..255 step (1/255 per
normalized channel). For height = 1 the single row carries `color_top`, not
`color_bottom`. -/
theorem gradient_rows_linear_interpolation
    (w h : ℕ) (top bottom : CMYKColor) (x y : ℕ)
    (_hh : 1 ≤ h) (_hy : y < h) (_hx : x < w) :
    gradientImagePixel w h top bottom x y = gradientPixel top bottom h y ∧
    gradientPixel top bottom h 0 =
      (pyInt (top.c * 2.55), pyInt (top.m * 2.55),
       pyInt (top.y * 2.55), pyInt (top.k * 2.55)) ∧
    (2 ≤ h → gradientPixel top bottom h (h - 1) =
      (pyInt (bottom.c * 2.55), pyInt (bottom.m * 2.55),
       pyInt (bottom.y * 2.55), pyInt (bottom.k * 2.55))) ∧
    (∀ q : ℚ, 0 ≤ q → |(pyInt (q * 2.55) : ℚ) - q * 2.55| < 1) := by
  have hlerp1 : ∀ a b : ℚ, gradientChannel a b 1 = b := by
    intro a b
    rw [gradientChannel]
    ring
  refine ⟨rfl, ?_, ?_, ?_⟩
  · simp [gradientPixel, gradientChannel, gradientT_zero]
  · intro h2
    simp [gradientPixel, gradientT_last h2, hlerp1]
  · intro q hq
    have h0 : 0 ≤ q * 2.55 := mul_nonneg hq (by norm_num)
    obtain ⟨hle, hgt⟩ := pyInt_err h0
    rw [abs_lt]
    constructor <;> linarith

/-- Witness for the amended C6 on a 1×2 gradient. -/
theorem gradient_rows_linear_interpolation_witness :
    gradientImagePixel 1 2 ⟨0, 0, 0, 0⟩ ⟨0, 0, 0, 100⟩ 0 1 =
      gradientPixel ⟨0, 0, 0, 0⟩ ⟨0, 0, 0, 100⟩ 2 1 ∧
    gradientPixel ⟨0, 0, 0, 0⟩ ⟨0, 0, 0, 100⟩ 2 0 =
      (pyInt ((0 : ℚ) * 2.55), pyInt ((0 : ℚ) * 2.55),
       pyInt ((0 : ℚ) * 2.55), pyInt ((0 : ℚ) * 2.55)) ∧
    (2 ≤ 2 → gradientPixel ⟨0, 0, 0, 0⟩ ⟨0, 0, 0, 100⟩ 2 (2 - 1) =
      (pyInt ((0 : ℚ) * 2.55), pyInt ((0 : ℚ) * 2.55),
       pyInt ((0 : ℚ) * 2.55), pyInt ((100 : ℚ) * 2.55))) ∧
    (∀ q : ℚ, 0 ≤ q → |(pyInt (q * 2.55) : ℚ) - q * 2.55| < 1) :=
  gradient_rows_linear_interpolation 1 2 ⟨0, 0, 0, 0⟩ ⟨0, 0, 0, 100⟩ 0 1
    (by norm_num) (by norm_num) (by norm_num)

/-! Vignette: the claim formula and the product form of the code formula. -/

/-- One smoothstep edge factor of the vignette opacity, with the integer fade
distance the code computes. -/
def fadeFactorSmooth (d fadeDist : ℤ) : ℚ :=
  if d < fadeDist then smoothstep ((d : ℚ) / (fadeDist : ℚ)) else 1

/-- The cubic bottom-edge factor. -/
def fadeFactorCubic (d fadeDist : ℤ) : ℚ :=
  if d < fadeDist then
    (let t := (d : ℚ) / (fadeDist : ℚ); t * t * t)
  else 1

/-- The vignette opacity as a product of four independent edge factors, with
the code's truncated fade distances. -/
def vignetteAlphaProduct (width height : ℕ) (edgeFade bottomFade topFade : ℚ)
    (x y : ℕ) : ℚ :=
  fadeFactorSmooth (x : ℤ) (pyInt ((width : ℚ) * edgeFade)) *
  fadeFactorSmooth ((width : ℤ) - x - 1) (pyInt ((width : ℚ) * edgeFade)) *
  fadeFactorSmooth (y : ℤ) (pyInt ((height : ℚ) * topFade)) *
  fadeFactorCubic ((height : ℤ) - y - 1) (pyInt ((height : ℚ) * bottomFade))

/-- The opacity as claim C7 literally states it, for comparison with the
code: thresholds and divisors are the un-truncated `fade-fraction ×
dimension`. -/
def vignetteAlphaClaim (width height : ℕ) (edgeFade bottomFade topFade : ℚ)
    (x y : ℕ) : ℚ :=
  (if (x : ℚ) < (width : ℚ) * edgeFade then
     smoothstep ((x : ℚ) / ((width : ℚ) * edgeFade)) else 1) *
  (if (((width : ℤ) - x - 1 : ℤ) : ℚ) < (width : ℚ) * edgeFade then
     smoothstep ((((width : ℤ) - x - 1 : ℤ) : ℚ) / ((width : ℚ) * edgeFade)) else 1) *
  (if (y : ℚ) < (height : ℚ) * topFade then
     smoothstep ((y : ℚ) / ((height : ℚ) * topFade)) else 1) *
  (if (((height : ℤ) - y - 1 : ℤ) : ℚ) < (height : ℚ) * bottomFade then
     (let t := (((height : ℤ) - y - 1 : ℤ) : ℚ) / ((height : ℚ) * bottomFade);
      t * t * t)
   else 1)

/-- The sequential code opacity equals the product of edge factors. -/
lemma vignetteAlpha_eq_product (w h : ℕ) (e b t : ℚ) (x y : ℕ) :
    vignetteAlpha w h e b t x y = vignetteAlphaProduct w h e b t x y := by
  simp only [vignetteAlpha, vignetteAlphaProduct, fadeFactorSmooth, fadeFactorCubic]
  split_ifs <;> ring

lemma smoothstep_bounds {t : ℚ} (h0 : 0 ≤ t) (h1 : t < 1) :
    0 ≤ smoothstep t ∧ smoothstep t ≤ 1 := by
  rw [smoothstep]
  constructor
  · have h3 : (0 : ℚ) ≤ 3 - 2 * t := by linarith
    exact mul_nonneg (mul_nonneg h0 h0) h3
  · nlinarith [mul_nonneg (sq_nonneg (1 - t)) (show (0 : ℚ) ≤ 1 + 2 * t by linarith)]

lemma fadeFactorSmooth_bounds (d fadeDist : ℤ) (hd : 0 ≤ d) :
    0 ≤ fadeFactorSmooth d fadeDist ∧ fadeFactorSmooth d fadeDist ≤ 1 := by
  rw [fadeFactorSmooth]
  split_ifs with hlt
  · have hpos : (0 : ℚ) < (fadeDist : ℚ) := by exact_mod_cast lt_of_le_of_lt hd hlt
    have ht0 : 0 ≤ (d : ℚ) / (fadeDist : ℚ) :=
      div_nonneg (by exact_mod_cast hd) hpos.le
    have ht1 : (d : ℚ) / (fadeDist : ℚ) < 1 :=
      (div_lt_one hpos).mpr (by exact_mod_cast hlt)
    exact smoothstep_bounds ht0 ht1
  · norm_num

lemma fadeFactorCubic_bounds (d fadeDist : ℤ) (hd : 0 ≤ d) :
    0 ≤ fadeFactorCubic d fadeDist ∧ fadeFactorCubic d fadeDist ≤ 1 := by
  rw [fadeFactorCubic]
  split_ifs with hlt
  · have hpos : (0 : ℚ) < (fadeDist : ℚ) := by exact_mod_cast lt_of_le_of_lt hd hlt
    have ht0 : 0 ≤ (d : ℚ) / (fadeDist : ℚ) :=
      div_nonneg (by exact_mod_cast hd) hpos.le
    have ht1 : (d : ℚ) / (fadeDist : ℚ) < 1 :=
      (div_lt_one hpos).mpr (by exact_mod_cast hlt)
    constructor
    · exact mul_nonneg (mul_nonneg ht0 ht0) ht0
    · nlinarith
  · norm_num

lemma vignetteAlphaProduct_bounds {w h : ℕ} {e b t : ℚ} {x y : ℕ}
    (hx : x < w) (hy : y < h) :
    0 ≤ vignetteAlphaProduct w h e b t x y ∧
      vignetteAlphaProduct w h e b t x y ≤ 1 := by
  have b1 := fadeFactorSmooth_bounds (x : ℤ) (pyInt ((w : ℚ) * e)) (by positivity)
  have b2 := fadeFactorSmooth_bounds ((w : ℤ) - x - 1) (pyInt ((w : ℚ) * e)) (by omega)
  have b3 := fadeFactorSmooth_bounds (y : ℤ) (pyInt ((h : ℚ) * t)) (by positivity)
  have b4 := fadeFactorCubic_bounds ((h : ℤ) - y - 1) (pyInt ((h : ℚ) * b)) (by omega)
  rw [vignetteAlphaProduct]
  constructor
  · exact mul_nonneg (mul_nonneg (mul_nonneg b1.1 b2.1) b3.1) b4.1
  · exact mul_le_one₀ (mul_le_one₀ (mul_le_one₀ b1.2 b2.1 b2.2) b3.1 b3.2) b4.1 b4.2

/-- C7 counterexample: at width 10, edge_fade 1/4, the code's threshold is
int(10·0.25) = 2 so the pixel at distance 2 is untouched (opacity 1), while
the claim's un-truncated formula gives smoothstep(2/2.5) = 112/125 < 1, which
would darken a 255 channel. -/
theorem vignetteAlpha_untruncated_threshold_cex :
    vignetteAlpha 10 1 (1/4) 0 0 2 0 = 1 ∧
    vignetteAlphaClaim 10 1 (1/4) 0 0 2 0 = 112/125 ∧
    ((112 : ℚ)/125 ≠ 1) ∧
    (255 : ℚ) * vignetteAlphaClaim 10 1 (1/4) 0 0 2 0 ≠ 255 := by
  have h52 : pyInt ((5 : ℚ)/2) = 2 := pyInt_eq (by norm_num) (by norm_num) (by norm_num)
  have h1 : vignetteAlpha 10 1 (1/4) 0 0 2 0 = 1 := by
    simp only [vignetteAlpha]
    norm_num [h52, pyInt_zero]
  have h2 : vignetteAlphaClaim 10 1 (1/4) 0 0 2 0 = 112/125 := by
    simp only [vignetteAlphaClaim, smoothstep]
    norm_num
  exact ⟨h1, h2, by norm_num, by rw [h2]; norm_num⟩

/-- C7 (amended): for in-range pixels the final opacity is the product of
the four independent edge factors — smoothstep for left/right/top, cubic for
the bottom — using the truncated fade distances int(fraction × dimension)
that the code computes, and every channel is scaled by that opacity (the
`alpha < 1` guard changes nothing since the opacity never exceeds 1); a fade
fraction of 0 disables its edge. -/
theorem vignettePixel_product_formula
    (w h : ℕ) (e b t : ℚ) (x y : ℕ) (p : ℤ × ℤ × ℤ × ℤ)
    (hx : x < w) (hy : y < h) :
    vignetteAlpha w h e b t x y = vignetteAlphaProduct w h e b t x y ∧
    vignettePixel w h e b t x y p =
      (pyInt ((p.1 : ℚ) * vignetteAlphaProduct w h e b t x y),
       pyInt ((p.2.1 : ℚ) * vignetteAlphaProduct w h e b t x y),
       pyInt ((p.2.2.1 : ℚ) * vignetteAlphaProduct w h e b t x y),
       pyInt ((p.2.2.2 : ℚ) * vignetteAlphaProduct w h e b t x y)) ∧
    (∀ dim : ℕ, pyInt ((dim : ℚ) * 0) = 0) ∧
    (∀ d : ℤ, 0 ≤ d → fadeFactorSmooth d 0 = 1 ∧ fadeFactorCubic d 0 = 1) := by
  refine ⟨vignetteAlpha_eq_product w h e b t x y, ?_, ?_, ?_⟩
  · obtain ⟨p1, p2, p3, p4⟩ := p
    rw [vignettePixel, vignetteAlpha_eq_product]
    split_ifs with hlt
    · rfl
    · have hle := (vignetteAlphaProduct_bounds (e := e) (b := b) (t := t) hx hy).2
      have ha1 : vignetteAlphaProduct w h e b t x y = 1 :=
        le_antisymm hle (not_lt.mp hlt)
      rw [ha1]
      simp [pyInt_intCast]
  · intro dim
    rw [mul_zero, pyInt_zero]
  · intro d hd
    constructor
    · rw [fadeFactorSmooth, if_neg (by omega)]
    · rw [fadeFactorCubic, if_neg (by omega)]

/-- Witness for the amended C7 at a concrete in-range pixel. -/
theorem vignettePixel_product_formula_witness :
    vignetteAlpha 3 3 (1/4) (9/20) (1/20) 1 1 =
      vignetteAlphaProduct 3 3 (1/4) (9/20) (1/20) 1 1 ∧
    vignettePixel 3 3 (1/4) (9/20) (1/20) 1 1 (7, 7, 7, 7) =
      (pyInt (((7 : ℤ) : ℚ) * vignetteAlphaProduct 3 3 (1/4) (9/20) (1/20) 1 1),
       pyInt (((7 : ℤ) : ℚ) * vignetteAlphaProduct 3 3 (1/4) (9/20) (1/20) 1 1),
       pyInt (((7 : ℤ) : ℚ) * vignetteAlphaProduct 3 3 (1/4) (9/20) (1/20) 1 1),
       pyInt (((7 : ℤ) : ℚ) * vignetteAlphaProduct 3 3 (1/4) (9/20) (1/20) 1 1)) ∧
    (∀ dim : ℕ, pyInt ((dim : ℚ) * 0) = 0) ∧
    (∀ d : ℤ, 0 ≤ d → fadeFactorSmooth d 0 = 1 ∧ fadeFactorCubic d 0 = 1) :=
  vignettePixel_product_formula 3 3 (1/4) (9/20) (1/20) 1 1 (7, 7, 7, 7)
    (by norm_num) (by norm_num)

/-- C2 counterexample: the gradient key ignores `hotspot_x`/`hotspot_y` and
the QR key ignores `fg_color`/`bg_color`, so requests differing only in those
fields share one cache key. -/
theorem cacheKey_ignores_hotspot_and_qr_colors_cex :
    (GradientConfig.getCacheKey ⟨2, 2, ⟨0, 0, 0, 0⟩, ⟨0, 0, 0, 100⟩, some 0, none⟩ =
      GradientConfig.getCacheKey ⟨2, 2, ⟨0, 0, 0, 0⟩, ⟨0, 0, 0, 100⟩, some 1, none⟩) ∧
    ((⟨2, 2, ⟨0, 0, 0, 0⟩, ⟨0, 0, 0, 100⟩, some 0, none⟩ : GradientConfig) ≠
      ⟨2, 2, ⟨0, 0, 0, 0⟩, ⟨0, 0, 0, 100⟩, some 1, none⟩) ∧
    (QRCodeConfig.getCacheKey ⟨pstr "x", 400, (0, 0, 0, 255), (0, 0, 0, 0), 2⟩ =
      QRCodeConfig.getCacheKey ⟨pstr "x", 400, (100, 0, 0, 255), (0, 0, 0, 0), 2⟩) ∧
    ((⟨pstr "x", 400, (0, 0, 0, 255), (0, 0, 0, 0), 2⟩ : QRCodeConfig) ≠
      ⟨pstr "x", 400, (100, 0, 0, 255), (0, 0, 0, 0), 2⟩) :=
  ⟨rfl, by decide, rfl, by decide⟩

/-- C2 (amended): field-wise equal requests produce identical cache keys; the
gradient key is computed only from width, height and the two colors (ignoring
the hotspot fields) and the QR key only from payload, size and border
(ignoring the color fields); and requests differing in any key-included field
produce different pre-hash key strings, hence different keys up to hash
collisions. -/
theorem cacheKey_field_dependence :
    (∀ c1 c2 : GradientConfig, c1.width_px = c2.width_px →
      c1.height_px = c2.height_px → c1.color_top = c2.color_top →
      c1.color_bottom = c2.color_bottom → c1.getCacheKey = c2.getCacheKey) ∧
    (∀ c1 c2 : QRCodeConfig, c1.data = c2.data → c1.size_px = c2.size_px →
      c1.border = c2.border → c1.getCacheKey = c2.getCacheKey) ∧
    (∀ c1 c2 : VignetteConfig, c1.edge_fade = c2.edge_fade →
      c1.bottom_fade = c2.bottom_fade → c1.top_fade = c2.top_fade →
      c1.getCacheKey = c2.getCacheKey) ∧
    (∀ c1 c2 : GradientConfig, gradientKeyData c1 = gradientKeyData c2 →
      c1.width_px = c2.width_px ∧ c1.height_px = c2.height_px ∧
      c1.color_top = c2.color_top ∧ c1.color_bottom = c2.color_bottom) ∧
    (∀ c1 c2 : QRCodeConfig, qrKeyData c1 = qrKeyData c2 →
      c1.data = c2.data ∧ c1.size_px = c2.size_px ∧ c1.border = c2.border) ∧
    (∀ c1 c2 : VignetteConfig, vignetteKeyData c1 = vignetteKeyData c2 →
      c1.edge_fade = c2.edge_fade ∧ c1.bottom_fade = c2.bottom_fade ∧
      c1.top_fade = c2.top_fade) := by
  refine ⟨?_, ?_, ?_, fun c1 c2 h => gradientKeyData_inj h,
    fun c1 c2 h => qrKeyData_inj h, fun c1 c2 h => vignetteKeyData_inj h⟩
  · intro c1 c2 h1 h2 h3 h4
    simp only [GradientConfig.getCacheKey, md5Hex, gradientKeyData, h1, h2, h3, h4]
  · intro c1 c2 h1 h2 h3
    simp only [QRCodeConfig.getCacheKey, md5Hex, qrKeyData, h1, h2, h3]
  · intro c1 c2 h1 h2 h3
    simp only [VignetteConfig.getCacheKey, md5Hex, vignetteKeyData, h1, h2, h3]

/-- Witness for the amended C2: two gradient requests agreeing on the hashed
fields but differing in both hotspot fields share a key. -/
theorem cacheKey_field_dependence_witness :
    GradientConfig.getCacheKey ⟨3, 4, ⟨1, 2, 3, 4⟩, ⟨5, 6, 7, 8⟩, some 0, some 0⟩ =
      GradientConfig.getCacheKey ⟨3, 4, ⟨1, 2, 3, 4⟩, ⟨5, 6, 7, 8⟩, none, some 1⟩ :=
  cacheKey_field_dependence.1 _ _ rfl rfl rfl rfl

end Billboards
